import Mathlib

/-!
Verification of the execution-context override mechanism of
`chain/types/ethtypes/tracing.go` (block-level field overrides and
per-account state overrides used by the call-simulation endpoint).

The Go source is shallowly embedded: structs become structures, nil-able
pointer fields become `Option`, `map` types become association lists,
`uint64` values become `Nat` (with explicit `< 2 ^ 64` bounds where a
claim speaks of 64-bit values; no operation here can overflow), and
`big.Int` becomes `Int`.
-/

/-- Modelled from the spec: the address type (`EthAddress`) is not under
`src/`; the spec describes addresses as fixed-width hexadecimal
identifiers.  An Ethereum-style account address is 20 bytes, embedded as
a function from position to byte. -/
abbrev EthAddress : Type := Fin 20 → Fin 256

/-- Modelled from the spec: the hash type (`EthHash`) is not under
`src/`; the spec describes storage slots (hash-typed) as fixed-width
hexadecimal identifiers.  An Ethereum-style hash is 32 bytes, embedded
as a function from position to byte. -/
abbrev EthHash : Type := Fin 32 → Fin 256

/-- Modelled from the spec: `EthUint64` (not under `src/`) is a 64-bit
unsigned integer, embedded as `Nat`; claims about 64-bit values carry an
explicit `< 2 ^ 64` bound. -/
abbrev EthUint64 : Type := Nat

/-- Modelled from the spec: `EthBigInt` (not under `src/`) wraps an
arbitrary-precision integer, embedded as `Int`. -/
abbrev EthBigInt : Type := Int

/-- Modelled from the spec: `EthBytes` (not under `src/`) is a byte
string, embedded as a list of bytes. -/
abbrev EthBytes : Type := List (Fin 256)

/-- The zero value of a storage slot: the all-zero hash. -/
def zeroHash : EthHash := fun _ => 0

/-- Modelled from the spec: an account's mutable execution-relevant
state (nonce, code, balance, storage).  The account/storage backing
store is an external collaborator accessed through a key-value style
capability, so storage is embedded as a total read function
slot → value (unset slots read as the zero value). -/
structure AccountState where
  nonce : Nat
  code : EthBytes
  balance : Int
  storage : EthHash → EthHash

/-- Modelled from the spec: the account/storage backing store, a
key-value capability from account key to account state.  Note the
source keys `StateOverride` by `EthHash`, so the lookup key here is
`EthHash` as well. -/
abbrev StateDB : Type := EthHash → AccountState

/-- Embeds `CanTransferFunc func(StateDB, EthAddress, *big.Int) bool`. -/
abbrev CanTransferFunc : Type := StateDB → EthAddress → Int → Bool

/-- Embeds `TransferFunc func(StateDB, EthAddress, EthAddress, *big.Int)`. -/
abbrev TransferFunc : Type := StateDB → EthAddress → EthAddress → Int → Unit

/-- Embeds `GetHashFunc func(uint64) EthAddress`.  Note that the source
declares the RESULT type as `EthAddress`, although its comment says the
function "returns the n'th block hash". -/
abbrev GetHashFunc : Type := Nat → EthAddress

/-- Embeds `BlockContext`: the auxiliary block information handed to
the EVM, three behavioral hooks plus seven block fields. -/
structure BlockContext where
  CanTransfer : CanTransferFunc
  Transfer : TransferFunc
  GetHash : GetHashFunc
  Coinbase : EthAddress
  GasLimit : Nat
  BlockNumber : Int
  Time : Nat
  Difficulty : Int
  BaseFee : Int
  Random : Option EthHash

/-- Embeds `BlockOverrides`: a sparse set of header fields to override;
every field is a nil-able pointer in the source, hence `Option` here. -/
structure BlockOverrides where
  Number : Option EthBigInt
  Difficulty : Option EthBigInt
  Time : Option EthUint64
  GasLimit : Option EthUint64
  Coinbase : Option EthAddress
  Random : Option EthHash
  BaseFee : Option EthUint64

/-- Embeds `OverrideAccount`: the overriding fields of an account during
the execution of a message call.  `Balance **EthBigInt` is a double
pointer in the source, hence `Option (Option EthBigInt)`. -/
structure OverrideAccount where
  Nonce : Option EthUint64
  Code : Option EthBytes
  Balance : Option (Option EthBigInt)
  State : Option (List (EthHash × EthHash))
  StateDiff : Option (List (EthHash × EthHash))

/-- Embeds `StateOverride map[EthHash]OverrideAccount` as an association
list from `EthHash` keys (as declared in the source) to accounts. -/
abbrev StateOverride : Type := List (EthHash × OverrideAccount)

/-- Embeds `(diff *BlockOverrides) Apply(blockCtx *BlockContext)`.  The
Go method mutates `blockCtx` in place through a sequence of nil checks;
the embedding threads the context through the same sequence of
conditional field updates and returns the final value.  A nil receiver
(`none`) returns immediately. -/
def BlockOverrides.Apply (diff : Option BlockOverrides) (blockCtx : BlockContext) :
    BlockContext :=
  match diff with
  | none => blockCtx
  | some d =>
    let c := blockCtx
    let c := match d.Number with
      | some n => { c with BlockNumber := n }
      | none => c
    let c := match d.Difficulty with
      | some x => { c with Difficulty := x }
      | none => c
    let c := match d.Time with
      | some t => { c with Time := t }
      | none => c
    let c := match d.GasLimit with
      | some g => { c with GasLimit := g }
      | none => c
    let c := match d.Coinbase with
      | some a => { c with Coinbase := a }
      | none => c
    let c := match d.Random with
      | some r => { c with Random := some r }
      | none => c
    let c := match d.BaseFee with
      | some f => { c with BaseFee := (f : Int) }
      | none => c
    c

/-- Helper: characterisation of `Apply` on a non-nil override as a
single structure literal. -/
theorem BlockOverrides.apply_some_eq (d : BlockOverrides) (c : BlockContext) :
    BlockOverrides.Apply (some d) c =
      { CanTransfer := c.CanTransfer
        Transfer := c.Transfer
        GetHash := c.GetHash
        Coinbase := d.Coinbase.getD c.Coinbase
        GasLimit := d.GasLimit.getD c.GasLimit
        BlockNumber := d.Number.getD c.BlockNumber
        Time := d.Time.getD c.Time
        Difficulty := d.Difficulty.getD c.Difficulty
        BaseFee := (d.BaseFee.map Int.ofNat).getD c.BaseFee
        Random := d.Random.or c.Random } := by
  obtain ⟨n, df, t, g, cb, r, bf⟩ := d
  cases n <;> cases df <;> cases t <;> cases g <;> cases cb <;> cases r <;> cases bf <;> rfl

/-- Claim C2: applying a nil/absent `BlockOverrides` via `Apply` leaves
the context equal to the base context in every field (a no-op, not an
error). -/
theorem blockOverrides_apply_nil_noop (c : BlockContext) :
    BlockOverrides.Apply none c = c := rfl

/-- Helper: `getD` through `Option.or`. -/
theorem opt_or_getD {α : Type} (b a : Option α) (x : α) :
    (b.or a).getD x = b.getD (a.getD x) := by
  cases b <;> rfl

/-- Helper: `Option.or` is associative. -/
theorem opt_or_assoc {α : Type} (b a z : Option α) :
    (b.or a).or z = b.or (a.or z) := by
  cases b <;> rfl

/-- Helper: mapped `Option.or` through `getD`. -/
theorem opt_map_or_getD {α β : Type} (f : α → β) (b a : Option α) (x : β) :
    ((b.or a).map f).getD x = (b.map f).getD ((a.map f).getD x) := by
  cases b <;> cases a <;> rfl

/-- Helper: `getD` chains commute when the two options are not both present. -/
theorem opt_getD_comm {α : Type} (a b : Option α) (x : α)
    (h : ¬(a.isSome ∧ b.isSome)) :
    b.getD (a.getD x) = a.getD (b.getD x) := by
  cases a <;> cases b <;> first | rfl | exact absurd ⟨rfl, rfl⟩ h

/-- Helper: mapped `getD` chains commute when the two options are not both
present. -/
theorem opt_map_getD_comm {α β : Type} (f : α → β) (a b : Option α) (x : β)
    (h : ¬(a.isSome ∧ b.isSome)) :
    (b.map f).getD ((a.map f).getD x) = (a.map f).getD ((b.map f).getD x) := by
  cases a <;> cases b <;> first | rfl | exact absurd ⟨rfl, rfl⟩ h

/-- Helper: `Option.or` chains commute on the left when the two options are
not both present. -/
theorem opt_or_left_comm {α : Type} (a b z : Option α)
    (h : ¬(a.isSome ∧ b.isSome)) :
    b.or (a.or z) = a.or (b.or z) := by
  cases a <;> cases b <;> first | rfl | exact absurd ⟨rfl, rfl⟩ h

/-- Two `BlockOverrides` have disjoint sets of present fields. -/
abbrev BlockOverrides.Disjoint (A B : BlockOverrides) : Prop :=
  ¬(A.Number.isSome ∧ B.Number.isSome) ∧
  ¬(A.Difficulty.isSome ∧ B.Difficulty.isSome) ∧
  ¬(A.Time.isSome ∧ B.Time.isSome) ∧
  ¬(A.GasLimit.isSome ∧ B.GasLimit.isSome) ∧
  ¬(A.Coinbase.isSome ∧ B.Coinbase.isSome) ∧
  ¬(A.Random.isSome ∧ B.Random.isSome) ∧
  ¬(A.BaseFee.isSome ∧ B.BaseFee.isSome)

/-- Concrete address used by witnesses. -/
def addrA : EthAddress := fun _ => 1

/-- Concrete hash used by witnesses. -/
def hashA : EthHash := fun _ => 2

/-- Concrete base block context used by witnesses. -/
def baseCtx : BlockContext where
  CanTransfer := fun _ _ _ => true
  Transfer := fun _ _ _ _ => ()
  GetHash := fun _ => addrA
  Coinbase := addrA
  GasLimit := 30000000
  BlockNumber := 100
  Time := 1700000000
  Difficulty := 7
  BaseFee := 1000
  Random := none

/-- Concrete override setting only `Number` and `Time`, used by witnesses. -/
def ovNT : BlockOverrides := ⟨some 5, none, some 42, none, none, none, none⟩

/-- Concrete override setting `Time`, `GasLimit` and `BaseFee` to 42, used
by witnesses. -/
def ovU : BlockOverrides := ⟨none, none, some 42, some 42, none, none, some 42⟩

/-- Concrete override setting only `GasLimit`, used by witnesses. -/
def ovG : BlockOverrides := ⟨none, none, none, some 777, none, none, none⟩

/-- Claim C1: on a non-nil `BlockOverrides`, `Apply` replaces exactly the
context fields whose override is present (Number, Difficulty, Time,
GasLimit, Coinbase, Random, BaseFee) with the override value, leaves
every field whose override is absent as in the base context, and never
changes the three behavioral hooks. -/
theorem blockOverrides_apply_frame (c : BlockContext) (d : BlockOverrides) :
    ((∀ x, d.Number = some x →
        (BlockOverrides.Apply (some d) c).BlockNumber = x) ∧
      (d.Number = none →
        (BlockOverrides.Apply (some d) c).BlockNumber = c.BlockNumber)) ∧
    ((∀ x, d.Difficulty = some x →
        (BlockOverrides.Apply (some d) c).Difficulty = x) ∧
      (d.Difficulty = none →
        (BlockOverrides.Apply (some d) c).Difficulty = c.Difficulty)) ∧
    ((∀ x, d.Time = some x →
        (BlockOverrides.Apply (some d) c).Time = x) ∧
      (d.Time = none →
        (BlockOverrides.Apply (some d) c).Time = c.Time)) ∧
    ((∀ x, d.GasLimit = some x →
        (BlockOverrides.Apply (some d) c).GasLimit = x) ∧
      (d.GasLimit = none →
        (BlockOverrides.Apply (some d) c).GasLimit = c.GasLimit)) ∧
    ((∀ x, d.Coinbase = some x →
        (BlockOverrides.Apply (some d) c).Coinbase = x) ∧
      (d.Coinbase = none →
        (BlockOverrides.Apply (some d) c).Coinbase = c.Coinbase)) ∧
    ((∀ x, d.Random = some x →
        (BlockOverrides.Apply (some d) c).Random = some x) ∧
      (d.Random = none →
        (BlockOverrides.Apply (some d) c).Random = c.Random)) ∧
    ((∀ x, d.BaseFee = some x →
        (BlockOverrides.Apply (some d) c).BaseFee = Int.ofNat x) ∧
      (d.BaseFee = none →
        (BlockOverrides.Apply (some d) c).BaseFee = c.BaseFee)) ∧
    ((BlockOverrides.Apply (some d) c).CanTransfer = c.CanTransfer ∧
      (BlockOverrides.Apply (some d) c).Transfer = c.Transfer ∧
      (BlockOverrides.Apply (some d) c).GetHash = c.GetHash) := by
  simp only [BlockOverrides.apply_some_eq]
  refine ⟨⟨fun x h => ?_, fun h => ?_⟩, ⟨fun x h => ?_, fun h => ?_⟩,
    ⟨fun x h => ?_, fun h => ?_⟩, ⟨fun x h => ?_, fun h => ?_⟩,
    ⟨fun x h => ?_, fun h => ?_⟩, ⟨fun x h => ?_, fun h => ?_⟩,
    ⟨fun x h => ?_, fun h => ?_⟩, trivial, trivial, trivial⟩ <;>
  (rw [h]; rfl)

/-- Witness for C1: with only `Number` and `Time` overridden on the
concrete base context, the overridden fields take the override values
and untouched fields (difficulty, the hash hook) keep their base
values. -/
theorem blockOverrides_apply_frame_witness :
    (BlockOverrides.Apply (some ovNT) baseCtx).BlockNumber = 5 ∧
    (BlockOverrides.Apply (some ovNT) baseCtx).Time = 42 ∧
    (BlockOverrides.Apply (some ovNT) baseCtx).Difficulty = baseCtx.Difficulty ∧
    (BlockOverrides.Apply (some ovNT) baseCtx).GetHash = baseCtx.GetHash :=
  ⟨(blockOverrides_apply_frame baseCtx ovNT).1.1 5 rfl,
    (blockOverrides_apply_frame baseCtx ovNT).2.2.1.1 42 rfl,
    (blockOverrides_apply_frame baseCtx ovNT).2.1.2 rfl,
    (blockOverrides_apply_frame baseCtx ovNT).2.2.2.2.2.2.2.2.2⟩

/-- Claim C3: `BlockOverrides.Apply` is idempotent: applying the same
non-nil override twice yields the same context as applying it once. -/
theorem blockOverrides_apply_idempotent (d : BlockOverrides) (c : BlockContext) :
    BlockOverrides.Apply (some d) (BlockOverrides.Apply (some d) c) =
      BlockOverrides.Apply (some d) c := by
  obtain ⟨n, df, t, g, cb, r, bf⟩ := d
  cases n <;> cases df <;> cases t <;> cases g <;> cases cb <;> cases r <;> cases bf <;> rfl

/-- Claim C9: the numeric conversions in `Apply` are exact: a 64-bit
`Time`, `GasLimit` or `BaseFee` override value `v` appears in the
resulting context exactly as `v`; in particular the widening of
`BaseFee` into the arbitrary-precision field round-trips
(`toNat` recovers `v`). -/
theorem blockOverrides_numeric_conversions_exact (c : BlockContext)
    (d : BlockOverrides) (v : Nat) (hv : v < 2 ^ 64) :
    (d.Time = some v → (BlockOverrides.Apply (some d) c).Time = v) ∧
    (d.GasLimit = some v → (BlockOverrides.Apply (some d) c).GasLimit = v) ∧
    (d.BaseFee = some v →
      (BlockOverrides.Apply (some d) c).BaseFee = Int.ofNat v ∧
      ((BlockOverrides.Apply (some d) c).BaseFee).toNat = v) := by
  simp only [BlockOverrides.apply_some_eq]
  refine ⟨fun h => ?_, fun h => ?_, fun h => ?_⟩ <;> rw [h]
  · rfl
  · rfl
  · exact ⟨rfl, rfl⟩

/-- Witness for C9: overriding `Time`, `GasLimit` and `BaseFee` with 42
yields exactly 42 in each resulting field. -/
theorem blockOverrides_numeric_conversions_exact_witness :
    (BlockOverrides.Apply (some ovU) baseCtx).Time = 42 ∧
    (BlockOverrides.Apply (some ovU) baseCtx).GasLimit = 42 ∧
    ((BlockOverrides.Apply (some ovU) baseCtx).BaseFee = Int.ofNat 42 ∧
      ((BlockOverrides.Apply (some ovU) baseCtx).BaseFee).toNat = 42) :=
  ⟨(blockOverrides_numeric_conversions_exact baseCtx ovU 42 (by decide)).1 rfl,
    (blockOverrides_numeric_conversions_exact baseCtx ovU 42 (by decide)).2.1 rfl,
    (blockOverrides_numeric_conversions_exact baseCtx ovU 42 (by decide)).2.2 rfl⟩

/-- Claim C10: sequential composition of non-nil block overrides is
last-writer-wins per field (each resulting field is B's value if
present in B, else A's if present in A, else the base value), and for
overrides with disjoint present fields the two application orders
agree. -/
theorem blockOverrides_apply_last_writer_wins (c : BlockContext)
    (A B : BlockOverrides) :
    ((BlockOverrides.Apply (some B) (BlockOverrides.Apply (some A) c)).BlockNumber =
        (B.Number.or A.Number).getD c.BlockNumber ∧
      (BlockOverrides.Apply (some B) (BlockOverrides.Apply (some A) c)).Difficulty =
        (B.Difficulty.or A.Difficulty).getD c.Difficulty ∧
      (BlockOverrides.Apply (some B) (BlockOverrides.Apply (some A) c)).Time =
        (B.Time.or A.Time).getD c.Time ∧
      (BlockOverrides.Apply (some B) (BlockOverrides.Apply (some A) c)).GasLimit =
        (B.GasLimit.or A.GasLimit).getD c.GasLimit ∧
      (BlockOverrides.Apply (some B) (BlockOverrides.Apply (some A) c)).Coinbase =
        (B.Coinbase.or A.Coinbase).getD c.Coinbase ∧
      (BlockOverrides.Apply (some B) (BlockOverrides.Apply (some A) c)).Random =
        (B.Random.or A.Random).or c.Random ∧
      (BlockOverrides.Apply (some B) (BlockOverrides.Apply (some A) c)).BaseFee =
        ((B.BaseFee.or A.BaseFee).map Int.ofNat).getD c.BaseFee ∧
      (BlockOverrides.Apply (some B) (BlockOverrides.Apply (some A) c)).CanTransfer =
        c.CanTransfer ∧
      (BlockOverrides.Apply (some B) (BlockOverrides.Apply (some A) c)).Transfer =
        c.Transfer ∧
      (BlockOverrides.Apply (some B) (BlockOverrides.Apply (some A) c)).GetHash =
        c.GetHash) ∧
    (BlockOverrides.Disjoint A B →
      BlockOverrides.Apply (some B) (BlockOverrides.Apply (some A) c) =
        BlockOverrides.Apply (some A) (BlockOverrides.Apply (some B) c)) := by
  constructor
  · simp only [BlockOverrides.apply_some_eq]
    exact ⟨(opt_or_getD _ _ _).symm, (opt_or_getD _ _ _).symm, (opt_or_getD _ _ _).symm,
      (opt_or_getD _ _ _).symm, (opt_or_getD _ _ _).symm, (opt_or_assoc _ _ _).symm,
      (opt_map_or_getD _ _ _ _).symm, trivial, trivial, trivial⟩
  · intro hdis
    obtain ⟨h1, h2, h3, h4, h5, h6, h7⟩ := hdis
    simp only [BlockOverrides.apply_some_eq]
    simp only [BlockContext.mk.injEq]
    exact ⟨trivial, trivial, trivial, opt_getD_comm _ _ _ h5, opt_getD_comm _ _ _ h4,
      opt_getD_comm _ _ _ h1, opt_getD_comm _ _ _ h3, opt_getD_comm _ _ _ h2,
      opt_map_getD_comm _ _ _ _ h7, opt_or_left_comm _ _ _ h6⟩

/-- Witness for C10: with `A` overriding only `Number`/`Time` and `B`
overriding only `GasLimit` (disjoint present fields), the two
application orders give the same context. -/
theorem blockOverrides_apply_last_writer_wins_witness :
    BlockOverrides.Apply (some ovG) (BlockOverrides.Apply (some ovNT) baseCtx) =
      BlockOverrides.Apply (some ovNT) (BlockOverrides.Apply (some ovG) baseCtx) :=
  (blockOverrides_apply_last_writer_wins baseCtx ovNT ovG).2 (by decide)

/-- Lookup of a storage slot in an override slot map (association list,
first match wins, as in a Go map with unique keys). -/
def lookupSlot : List (EthHash × EthHash) → EthHash → Option EthHash
  | [], _ => none
  | (k, v) :: rest, s => if k = s then some v else lookupSlot rest s

/-- Helper: with unique keys, a listed slot looks up to its value. -/
theorem lookupSlot_eq_some (m : List (EthHash × EthHash)) (s v : EthHash)
    (hnd : (m.map Prod.fst).Nodup) (hmem : (s, v) ∈ m) :
    lookupSlot m s = some v := by
  induction m with
  | nil => cases hmem
  | cons head rest ih =>
    obtain ⟨k, w⟩ := head
    simp only [List.map_cons, List.nodup_cons] at hnd
    rcases List.mem_cons.mp hmem with heq | htail
    · injection heq with h1 h2
      subst h1
      subst h2
      simp [lookupSlot]
    · have hk : ¬(k = s) := by
        intro hks
        subst hks
        exact hnd.1 (List.mem_map.mpr ⟨(k, v), htail, rfl⟩)
      rw [lookupSlot, if_neg hk]
      exact ih hnd.2 htail

/-- Helper: an unlisted slot looks up to `none`. -/
theorem lookupSlot_eq_none (m : List (EthHash × EthHash)) (s : EthHash)
    (h : s ∉ m.map Prod.fst) : lookupSlot m s = none := by
  induction m with
  | nil => rfl
  | cons head rest ih =>
    obtain ⟨k, w⟩ := head
    simp only [List.map_cons, List.mem_cons, not_or] at h
    have hk : ¬(k = s) := fun hks => h.1 hks.symm
    rw [lookupSlot, if_neg hk]
    exact ih h.2

/-- Modelled from the spec: the error taxonomy of the Account State
Overrider (spec section 7); `ConflictingStateOverride` names the
offending account key (the `StateOverride` key type as declared in the
source). -/
inductive StateApplyError where
  | ConflictingStateOverride (addr : EthHash)

/-- Modelled from the spec: the Account State Overrider's per-account
merge (spec section 4.2), whose implementation is missing from `src/`
(only the `OverrideAccount` data type is declared there).  Validation
(the `State`/`StateDiff` mutual-exclusivity check) is evaluated first,
before any field is merged; then nonce, code, balance and storage are
merged as the spec prescribes: `State` fully replaces storage (unlisted
slots read as zero), `StateDiff` patches individual slots over the
existing storage. -/
def OverrideAccount.applyTo (ov : OverrideAccount) (addr : EthHash)
    (acct : AccountState) : Except StateApplyError AccountState :=
  if ov.State.isSome && ov.StateDiff.isSome then
    .error (.ConflictingStateOverride addr)
  else
    .ok
      { nonce := ov.Nonce.getD acct.nonce
        code := ov.Code.getD acct.code
        balance :=
          match ov.Balance with
          | none => acct.balance
          | some none => 0
          | some (some v) => v
        storage :=
          match ov.State, ov.StateDiff with
          | some m, _ => fun s => (lookupSlot m s).getD zeroHash
          | none, some m => fun s => (lookupSlot m s).getD (acct.storage s)
          | none, none => acct.storage }

/-- Modelled from the spec: the Account State Overrider's `Apply`
(spec section 4.2) over a whole `StateOverride`, missing from `src/`.
It folds the per-account merge into a transient overlay over the base
state; accounts not named read unchanged from the base, and on a
validation failure the overlay is discarded, so the base is never
mutated. -/
def StateOverride.Apply : StateOverride → StateDB → Except StateApplyError StateDB
  | [], base => .ok base
  | (addr, ov) :: rest, base =>
    match ov.applyTo addr (base addr) with
    | .error e => .error e
    | .ok acct =>
      StateOverride.Apply rest (fun a => if a = addr then acct else base a)

/-- Helper: a conflicting per-account override is rejected. -/
theorem applyTo_conflict (ov : OverrideAccount) (addr : EthHash)
    (acct : AccountState) (h : (ov.State.isSome && ov.StateDiff.isSome) = true) :
    ov.applyTo addr acct = .error (.ConflictingStateOverride addr) := by
  unfold OverrideAccount.applyTo
  rw [h]
  rfl

/-- Helper: a non-conflicting per-account override merges successfully. -/
theorem applyTo_isOk (ov : OverrideAccount) (addr : EthHash)
    (acct : AccountState) (h : ¬((ov.State.isSome && ov.StateDiff.isSome) = true)) :
    ∃ r, ov.applyTo addr acct = .ok r := by
  unfold OverrideAccount.applyTo
  rw [if_neg h]
  exact ⟨_, rfl⟩

/-- Helper: a `StateOverride` containing a conflicting account makes the
whole application fail with a `ConflictingStateOverride` error. -/
theorem stateOverride_apply_conflict (ovs : StateOverride) :
    ∀ (base : StateDB) (addr : EthHash) (ov : OverrideAccount),
      (addr, ov) ∈ ovs → ov.State.isSome = true → ov.StateDiff.isSome = true →
      ∃ a, StateOverride.Apply ovs base = .error (.ConflictingStateOverride a) := by
  induction ovs with
  | nil =>
    intro base addr ov hmem _ _
    cases hmem
  | cons head rest ih =>
    intro base addr ov hmem hs hd
    obtain ⟨a0, ov0⟩ := head
    by_cases hconf : (ov0.State.isSome && ov0.StateDiff.isSome) = true
    · refine ⟨a0, ?_⟩
      rw [StateOverride.Apply, applyTo_conflict ov0 a0 (base a0) hconf]
    · have hmem2 : (addr, ov) ∈ rest := by
        rcases List.mem_cons.mp hmem with heq | htail
        · exfalso
          injection heq with h1 h2
          subst h1
          subst h2
          exact hconf (by rw [hs, hd]; rfl)
        · exact htail
      obtain ⟨r, hr⟩ := applyTo_isOk ov0 a0 (base a0) hconf
      obtain ⟨a, ha⟩ := ih (fun x => if x = a0 then r else base x) addr ov hmem2 hs hd
      refine ⟨a, ?_⟩
      rw [StateOverride.Apply, hr]
      exact ha

/-- Claim C4: for an account whose override has both `State` and
`StateDiff` present, the per-account merge fails with
`ConflictingStateOverride` naming that account (the failure is the
validation step, evaluated before any field is merged), and the whole
`StateOverride.Apply` fails with a `ConflictingStateOverride` error
rather than producing an effective state; the base state value is
untouched (the overlay under construction is discarded). -/
theorem stateOverride_conflict_rejected (ovs : StateOverride) (base : StateDB)
    (addr : EthHash) (ov : OverrideAccount) (acct : AccountState)
    (hmem : (addr, ov) ∈ ovs) (hs : ov.State.isSome = true)
    (hd : ov.StateDiff.isSome = true) :
    ov.applyTo addr acct = .error (.ConflictingStateOverride addr) ∧
    ∃ a, StateOverride.Apply ovs base = .error (.ConflictingStateOverride a) :=
  ⟨applyTo_conflict ov addr acct (by rw [hs, hd]; rfl),
    stateOverride_apply_conflict ovs base addr ov hmem hs hd⟩

/-- Concrete conflicting override (both `State` and `StateDiff` present),
used by witnesses. -/
def ovConflict : OverrideAccount := ⟨none, none, none, some [], some []⟩

/-- Concrete base account used by witnesses. -/
def acct0 : AccountState := ⟨7, [], 55, fun _ => zeroHash⟩

/-- Concrete base state used by witnesses. -/
def baseStateDB : StateDB := fun _ => acct0

/-- Witness for C4: a singleton override with both `State` and
`StateDiff` present on the concrete base state is rejected with
`ConflictingStateOverride`. -/
theorem stateOverride_conflict_rejected_witness :
    ovConflict.applyTo hashA acct0 = .error (.ConflictingStateOverride hashA) ∧
    ∃ a, StateOverride.Apply [(hashA, ovConflict)] baseStateDB =
      .error (.ConflictingStateOverride a) :=
  stateOverride_conflict_rejected [(hashA, ovConflict)] baseStateDB hashA ovConflict
    acct0 (List.Mem.head _) rfl rfl

/-- Helper: a full-state override merges to a storage read entirely from
the given slot map. -/
theorem applyTo_storage_state (ov : OverrideAccount) (addr : EthHash)
    (acct : AccountState) (m : List (EthHash × EthHash))
    (h1 : ov.State = some m) (h2 : ov.StateDiff = none) :
    ∃ r, ov.applyTo addr acct = .ok r ∧
      r.storage = fun s => (lookupSlot m s).getD zeroHash := by
  unfold OverrideAccount.applyTo
  rw [h1, h2]
  exact ⟨_, rfl, rfl⟩

/-- Helper: a diff override merges to a storage that patches the base. -/
theorem applyTo_storage_diff (ov : OverrideAccount) (addr : EthHash)
    (acct : AccountState) (m : List (EthHash × EthHash))
    (h1 : ov.State = none) (h2 : ov.StateDiff = some m) :
    ∃ r, ov.applyTo addr acct = .ok r ∧
      r.storage = fun s => (lookupSlot m s).getD (acct.storage s) := by
  unfold OverrideAccount.applyTo
  rw [h1, h2]
  exact ⟨_, rfl, rfl⟩

/-- Claim C5: with `State` present (and no `StateDiff`), the merged
account's storage is exactly the given slot map — a listed slot (under
unique keys) reads its listed value and every unlisted slot reads the
zero value, the base storage being fully discarded; with `StateDiff`
present instead, a listed slot reads the diff value and every unlisted
slot retains its base value. -/
theorem overrideAccount_storage_semantics (ov : OverrideAccount) (addr : EthHash)
    (acct : AccountState) (m : List (EthHash × EthHash)) (slot : EthHash) :
    (ov.State = some m → ov.StateDiff = none →
      ∃ r, ov.applyTo addr acct = .ok r ∧
        (∀ v, (m.map Prod.fst).Nodup → (slot, v) ∈ m → r.storage slot = v) ∧
        (slot ∉ m.map Prod.fst → r.storage slot = zeroHash)) ∧
    (ov.State = none → ov.StateDiff = some m →
      ∃ r, ov.applyTo addr acct = .ok r ∧
        (∀ v, (m.map Prod.fst).Nodup → (slot, v) ∈ m → r.storage slot = v) ∧
        (slot ∉ m.map Prod.fst → r.storage slot = acct.storage slot)) := by
  constructor
  · intro h1 h2
    obtain ⟨r, hr, hst⟩ := applyTo_storage_state ov addr acct m h1 h2
    refine ⟨r, hr, ?_, ?_⟩
    · intro v hnd hmem
      rw [hst]
      simp [lookupSlot_eq_some m slot v hnd hmem]
    · intro hnot
      rw [hst]
      simp [lookupSlot_eq_none m slot hnot]
  · intro h1 h2
    obtain ⟨r, hr, hst⟩ := applyTo_storage_diff ov addr acct m h1 h2
    refine ⟨r, hr, ?_, ?_⟩
    · intro v hnd hmem
      rw [hst]
      simp [lookupSlot_eq_some m slot v hnd hmem]
    · intro hnot
      rw [hst]
      simp [lookupSlot_eq_none m slot hnot]

/-- Concrete storage slots and values used by witnesses. -/
def slot1 : EthHash := fun _ => 3

/-- Concrete storage slot distinct from `slot1`, used by witnesses. -/
def slot2 : EthHash := fun _ => 4

/-- Concrete base value of `slot1`, used by witnesses. -/
def val0 : EthHash := fun _ => 5

/-- Concrete override value for `slot1`, used by witnesses. -/
def val1 : EthHash := fun _ => 6

/-- Concrete base value of `slot2`, used by witnesses. -/
def val2 : EthHash := fun _ => 7

/-- Concrete base account with storage `{slot1: val0, slot2: val2}`,
used by witnesses. -/
def acctStore : AccountState :=
  ⟨1, [], 10, fun s => if s = slot1 then val0 else if s = slot2 then val2 else zeroHash⟩

/-- Concrete full-state override `State = {slot1: val1}`, used by
witnesses. -/
def ovStateFull : OverrideAccount := ⟨none, none, none, some [(slot1, val1)], none⟩

/-- Concrete diff override `StateDiff = {slot1: val1}`, used by
witnesses. -/
def ovStateDiff : OverrideAccount := ⟨none, none, none, none, some [(slot1, val1)]⟩

/-- Witness for C5, on the spec's own test data: over base storage
`{slot1: val0, slot2: val2}`, the full-state override `{slot1: val1}`
yields `slot1 = val1` and `slot2 = zero`, while the diff override
`{slot1: val1}` yields `slot1 = val1` and `slot2 = val2`. -/
theorem overrideAccount_storage_semantics_witness :
    (∃ r, ovStateFull.applyTo hashA acctStore = .ok r ∧ r.storage slot1 = val1) ∧
    (∃ r, ovStateFull.applyTo hashA acctStore = .ok r ∧ r.storage slot2 = zeroHash) ∧
    (∃ r, ovStateDiff.applyTo hashA acctStore = .ok r ∧ r.storage slot1 = val1) ∧
    (∃ r, ovStateDiff.applyTo hashA acctStore = .ok r ∧ r.storage slot2 = val2) := by
  refine ⟨?_, ?_, ?_, ?_⟩
  · obtain ⟨r, hr, hs, _⟩ :=
      (overrideAccount_storage_semantics ovStateFull hashA acctStore
        [(slot1, val1)] slot1).1 rfl rfl
    exact ⟨r, hr, hs val1 (by decide) (List.Mem.head _)⟩
  · obtain ⟨r, hr, _, hn⟩ :=
      (overrideAccount_storage_semantics ovStateFull hashA acctStore
        [(slot1, val1)] slot2).1 rfl rfl
    exact ⟨r, hr, hn (by decide)⟩
  · obtain ⟨r, hr, hs, _⟩ :=
      (overrideAccount_storage_semantics ovStateDiff hashA acctStore
        [(slot1, val1)] slot1).2 rfl rfl
    exact ⟨r, hr, hs val1 (by decide) (List.Mem.head _)⟩
  · obtain ⟨r, hr, _, hn⟩ :=
      (overrideAccount_storage_semantics ovStateDiff hashA acctStore
        [(slot1, val1)] slot2).2 rfl rfl
    exact ⟨r, hr, (hn (by decide)).trans (by decide)⟩

/-- Claim C6: the balance override is doubly optional and the merge
distinguishes the three states: outer absence leaves the base balance
unchanged, outer presence with inner absence zeroes the balance, and
outer and inner presence replaces the balance with the given value. -/
theorem overrideAccount_balance_three_way (ov : OverrideAccount) (addr : EthHash)
    (acct : AccountState) (h : (ov.State.isSome && ov.StateDiff.isSome) = false) :
    ∃ r, ov.applyTo addr acct = .ok r ∧
      (ov.Balance = none → r.balance = acct.balance) ∧
      (ov.Balance = some none → r.balance = 0) ∧
      (∀ v, ov.Balance = some (some v) → r.balance = v) := by
  unfold OverrideAccount.applyTo
  rw [h]
  refine ⟨_, rfl, fun hb => ?_, fun hb => ?_, fun v hb => ?_⟩ <;> rw [hb]

/-- Concrete override with absent balance field, used by witnesses. -/
def ovBalAbsent : OverrideAccount := ⟨none, none, none, none, none⟩

/-- Concrete override that explicitly clears the balance, used by
witnesses. -/
def ovBalClear : OverrideAccount := ⟨none, none, some none, none, none⟩

/-- Concrete override that sets the balance to 99, used by witnesses. -/
def ovBalSet : OverrideAccount := ⟨none, none, some (some 99), none, none⟩

/-- Witness for C6: the three balance override states on the concrete
base account (balance 55): absent keeps 55, outer-present/inner-absent
zeroes, outer-and-inner-present sets 99. -/
theorem overrideAccount_balance_three_way_witness :
    (∃ r, ovBalAbsent.applyTo hashA acct0 = .ok r ∧ r.balance = acct0.balance) ∧
    (∃ r, ovBalClear.applyTo hashA acct0 = .ok r ∧ r.balance = 0) ∧
    (∃ r, ovBalSet.applyTo hashA acct0 = .ok r ∧ r.balance = 99) := by
  refine ⟨?_, ?_, ?_⟩
  · obtain ⟨r, hr, h1, _, _⟩ :=
      overrideAccount_balance_three_way ovBalAbsent hashA acct0 rfl
    exact ⟨r, hr, h1 rfl⟩
  · obtain ⟨r, hr, _, h2, _⟩ :=
      overrideAccount_balance_three_way ovBalClear hashA acct0 rfl
    exact ⟨r, hr, h2 rfl⟩
  · obtain ⟨r, hr, _, _, h3⟩ :=
      overrideAccount_balance_three_way ovBalSet hashA acct0 rfl
    exact ⟨r, hr, h3 99 rfl⟩

/-- Helper: the 20-byte address type and the 32-byte hash type are
distinct types (their cardinalities differ). -/
theorem ethAddress_ne_ethHash : EthAddress ≠ EthHash := by
  intro h
  have hc : Fintype.card EthAddress = Fintype.card EthHash :=
    Fintype.card_congr (Equiv.cast h)
  rw [Fintype.card_fun, Fintype.card_fun, Fintype.card_fin, Fintype.card_fin] at hc
  norm_num at hc

/-- Claim C7 (refuting the claim on the code as written): the source
declares the block-hash lookup hook as `GetHashFunc func(uint64)
EthAddress`, so the hook's result type is the 20-byte address type,
which is provably distinct from the 32-byte hash type — contradicting
both the claim and the source's own comment that the function "returns
the n'th block hash". -/
theorem getHashFunc_result_is_address_not_hash :
    GetHashFunc = (Nat → EthAddress) ∧ EthAddress ≠ EthHash :=
  ⟨rfl, ethAddress_ne_ethHash⟩

/-- Claim C8 (refuting the claim on the code as written): the source
declares `StateOverride` as `map[EthHash]OverrideAccount`, so its keys
are hash-typed, and the hash type is provably distinct from the address
type the claim (and the spec) require. -/
theorem stateOverride_keys_are_hash_typed :
    StateOverride = List (EthHash × OverrideAccount) ∧ EthHash ≠ EthAddress :=
  ⟨rfl, fun h => ethAddress_ne_ethHash h.symm⟩
